import Mathlib

/-!
# Verification of the KeraDB explorer vector-visualization core

Shallow embedding of the `VectorVisualization` component: the PCA-style
2D projection (`projectTo2D`, `powerIteration`, `powerIterationOrthogonal`),
the data-to-device view transform, the pointer hit-testing scan, the zoom/pan
state machine, the hover info panel geometry, and the click dispatch.

Modelling conventions:
* JavaScript `number` is modelled as `ℚ` (exact rational arithmetic; the
  source's floating-point rounding is out of scope).
* `Math.sqrt` is modelled by `ratSqrt`, an integer-Newton square root on the
  numerator/denominator; it is exact whenever the argument is the square of a
  rational, which covers every concrete evaluation below.
* In the hit-testing scan the source compares `Math.sqrt` distances; since the
  real square root is strictly monotone on nonnegatives, every comparison takes
  the same branch when distances are compared squared against the squared
  threshold, which is how `hitTest` is embedded (the app keeps `zoom` in
  `[0.2, 5]`, so the threshold `20 * zoom` is nonnegative).
* JavaScript out-of-bounds indexing (which would yield `NaN` arithmetic) is
  modelled by `List.getD`/`List.zipWith` defaults; all claims concern batches
  of uniform dimension, where no out-of-bounds access occurs.
-/

namespace Explorer

/-- One step of the integer Newton iteration for square roots, with explicit
fuel so that the kernel can evaluate it. -/
def sqrtIter (n : ℕ) : ℕ → ℕ → ℕ
  | 0, guess => guess
  | Nat.succ fuel, guess =>
    let next := (guess + n / guess) / 2
    if next < guess then sqrtIter n fuel next else guess

/-- Integer square root (floor), by Newton iteration. -/
def natSqrt (n : ℕ) : ℕ := if n ≤ 1 then n else sqrtIter n n (n / 2)

/-- Model of `Math.sqrt` on rationals: exact for squares of rationals
(`ratSqrt ((a/b)^2) = a/b` for `a/b ≥ 0` in lowest terms), a floor-style
approximation otherwise. -/
def ratSqrt (q : ℚ) : ℚ := (natSqrt (q.num.toNat * q.den) : ℚ) / (q.den : ℚ)

/-- `dotProduct` from the source:
`a.reduce((sum, x, i) => sum + x * b[i], 0)`. -/
def dotProduct (a b : List ℚ) : ℚ := (List.zipWith (fun x y => x * y) a b).sum

/-- The `rangeX = maxX - minX || 1` idiom: a zero range falls back to 1. -/
def rangeOr1 (r : ℚ) : ℚ := if r = 0 then 1 else r

/-- The view transform (source `transform` inside the draw effect, and the
identical inlined copy in `handleMouseMove`): normalize into the padded box,
then apply zoom about the viewport center and add pan. The source fixes
`padding = 40`; it is kept as a parameter here because claim C6 quantifies
over it. -/
def transformPt (minX minY rangeX rangeY width height padding zoom panX panY x y : ℚ) :
    ℚ × ℚ :=
  let tx := ((x - minX) / rangeX) * (width - 2 * padding) + padding
  let ty := height - (((y - minY) / rangeY) * (height - 2 * padding) + padding)
  let cx := width / 2
  let cy := height / 2
  ((tx - cx) * zoom + cx + panX, (ty - cy) * zoom + cy + panY)

/-- A projected point as carried in component state (source `Point2D`):
data-space coordinates plus the record payload. -/
structure Point2D where
  x : ℚ
  y : ℚ
  id : ℤ
  metadata : Option String
  isSearchResult : Bool
  score : Option ℚ
  originalVector : List ℚ
deriving DecidableEq

/-- A vector record from the store (source `VectorDocument`), restricted to
the fields the visualization reads. -/
structure VectorDocument where
  id : ℤ
  vector : List ℚ
  metadata : Option String
deriving DecidableEq

/-- Minimum of the x-coordinates of a point list. The source seeds the fold
with `Infinity`; on a nonempty list that equals seeding with the first
element. The empty case is unreachable (both call sites return before the
fold when the point list is empty) and is modelled as 0. -/
def minXOf : List Point2D → ℚ
  | [] => 0
  | p :: rest => rest.foldl (fun a q => min a q.x) p.x

/-- Maximum of the x-coordinates; see `minXOf` for the seeding convention. -/
def maxXOf : List Point2D → ℚ
  | [] => 0
  | p :: rest => rest.foldl (fun a q => max a q.x) p.x

/-- Minimum of the y-coordinates; see `minXOf` for the seeding convention. -/
def minYOf : List Point2D → ℚ
  | [] => 0
  | p :: rest => rest.foldl (fun a q => min a q.y) p.y

/-- Maximum of the y-coordinates; see `minXOf` for the seeding convention. -/
def maxYOf : List Point2D → ℚ
  | [] => 0
  | p :: rest => rest.foldl (fun a q => max a q.y) p.y

/-- Device position of a point as computed inline in `handleMouseMove`:
bounds over the projected points (the query point is not included there),
fallback range 1, padding 40, then zoom/pan about the viewport center. -/
def hoverDevicePos (pts : List Point2D) (width height zoom panX panY : ℚ)
    (p : Point2D) : ℚ × ℚ :=
  transformPt (minXOf pts) (minYOf pts)
    (rangeOr1 (maxXOf pts - minXOf pts)) (rangeOr1 (maxYOf pts - minYOf pts))
    width height 40 zoom panX panY p.x p.y

/-- Squared device-space distance from the pointer to a point, the squared
form of `Math.sqrt((mouseX - zoomedX) ** 2 + (mouseY - zoomedY) ** 2)`. -/
def hoverDistSq (mouseX mouseY width height zoom panX panY : ℚ)
    (pts : List Point2D) (p : Point2D) : ℚ :=
  (mouseX - (hoverDevicePos pts width height zoom panX panY p).1) ^ 2 +
    (mouseY - (hoverDevicePos pts width height zoom panX panY p).2) ^ 2

/-- The running-minimum scan of `handleMouseMove`: mutable `closestDist`
(seeded with the hover threshold) and `closest` (seeded null), each candidate
replacing them only when strictly closer. -/
def scanMin (d : Point2D → ℚ) : List Point2D → ℚ → Option Point2D → Option Point2D
  | [], _, best => best
  | p :: rest, closestDist, best =>
    if d p < closestDist then scanMin d rest (d p) (some p)
    else scanMin d rest closestDist best

/-- Hit-testing (source `handleMouseMove`, hover branch): scan all projected
points, keeping the strictly closest one seeded against the threshold
`20 * zoom`. Distances are compared squared (see the header note); the seed
is therefore `(20 * zoom) ^ 2`. -/
def hitTest (mouseX mouseY : ℚ) (pts : List Point2D)
    (width height zoom panX panY : ℚ) : Option Point2D :=
  scanMin (hoverDistSq mouseX mouseY width height zoom panX panY pts) pts
    ((20 * zoom) ^ 2) none

/-- The zoom/pan substate (spec `ViewState`). -/
structure ViewState where
  zoom : ℚ
  pan : ℚ × ℚ
deriving DecidableEq

/-- Initial view state: `useState(1)` for zoom, `useState({x:0,y:0})` for pan. -/
def initialView : ViewState := ⟨1, (0, 0)⟩

/-- The zoom-affecting user operations: a wheel event (with the sign of
`deltaY`), the explicit zoom-in/zoom-out buttons, and the reset button. -/
inductive ZoomOp where
  | wheel (deltaYPos : Bool)
  | zoomIn
  | zoomOut
  | reset
deriving DecidableEq

/-- Source `handleWheel` / `handleZoomIn` / `handleZoomOut` / `handleReset`:
wheel multiplies by 0.9 (scroll down, `deltaY > 0`) or 1.1 and clamps to
`[0.2, 5]`; the buttons multiply/divide by 1.2 with one-sided clamps; reset
restores zoom 1 and pan (0,0). -/
def applyZoomOp (s : ViewState) : ZoomOp → ViewState
  | .wheel deltaYPos =>
    let delta : ℚ := if deltaYPos then 9 / 10 else 11 / 10
    { s with zoom := max (1 / 5) (min 5 (s.zoom * delta)) }
  | .zoomIn => { s with zoom := min (s.zoom * (6 / 5)) 5 }
  | .zoomOut => { s with zoom := max (s.zoom / (6 / 5)) (1 / 5) }
  | .reset => ⟨1, (0, 0)⟩

/-- Working set of the projection: the input batch, with the query vector
appended last when present. -/
def workingSet (vectors : List (List ℚ)) (queryVector : Option (List ℚ)) :
    List (List ℚ) :=
  match queryVector with
  | some q => vectors ++ [q]
  | none => vectors

/-- `dim = allVectors[0].length` from the source. -/
def vecDim (allVectors : List (List ℚ)) : ℕ := (allVectors.headD []).length

/-- Component-wise mean of the working set: `mean[i] += v[i] / n` over all
vectors (summation order is immaterial in `ℚ`). -/
def meanVec (allVectors : List (List ℚ)) : List ℚ :=
  (List.range (vecDim allVectors)).map
    (fun i => (allVectors.map (fun v => v.getD i 0 / (allVectors.length : ℚ))).sum)

/-- Centering one vector: `v.map((x, i) => x - mean[i])`. -/
def centerVec (mean v : List ℚ) : List ℚ :=
  List.zipWith (fun x m => x - m) v mean

/-- The centered working set. -/
def centeredSet (allVectors : List (List ℚ)) : List (List ℚ) :=
  allVectors.map (centerVec (meanVec allVectors))

/-- One application of the implicit covariance operator inside the power
iteration: `result[i] += row[i] * (row · v)` over all data rows, starting
from a zero vector of length `dim`. -/
def covApply (data : List (List ℚ)) (dim : ℕ) (v : List ℚ) : List ℚ :=
  data.foldl
    (fun result row =>
      List.zipWith (fun acc x => acc + x) result (row.map (fun x => x * dotProduct row v)))
    (List.replicate dim 0)

/-- One guarded iteration of `powerIteration`: renormalize only when the
norm of the covariance image exceeds `1e-10`, otherwise keep `v`. -/
def powerStep (data : List (List ℚ)) (dim : ℕ) (v : List ℚ) : List ℚ :=
  let result := covApply data dim v
  let norm := ratSqrt (dotProduct result result)
  if 1 / 10 ^ 10 < norm then result.map (fun x => x / norm) else v

/-- The 50-iteration loop of `powerIteration`, with the iteration count
explicit. -/
def powerLoop (data : List (List ℚ)) (dim : ℕ) : ℕ → List ℚ → List ℚ
  | 0, v => v
  | Nat.succ k, v => powerLoop data dim k (powerStep data dim v)

/-- Source `powerIteration`, with the random start vector `r` made an
explicit argument. Note the initial normalization divides by `‖r‖`
unconditionally — only the in-loop normalization carries the `1e-10`
guard. -/
def powerIteration (data : List (List ℚ)) (dim : ℕ) (r : List ℚ) : List ℚ :=
  let norm := ratSqrt (dotProduct r r)
  let v := r.map (fun x => x / norm)
  powerLoop data dim 50 v

/-- Gram-Schmidt removal of the `pc1` component:
`proj1 = v · pc1; v[i] -= proj1 * pc1[i]`. -/
def deflate (pc1 v : List ℚ) : List ℚ :=
  let proj1 := dotProduct v pc1
  List.zipWith (fun x p => x - proj1 * p) v pc1

/-- One guarded iteration of `powerIterationOrthogonal`: covariance image,
then deflation against `pc1`, then the guarded renormalization. -/
def orthoStep (data : List (List ℚ)) (dim : ℕ) (pc1 v : List ℚ) : List ℚ :=
  let result := deflate pc1 (covApply data dim v)
  let norm := ratSqrt (dotProduct result result)
  if 1 / 10 ^ 10 < norm then result.map (fun x => x / norm) else v

/-- The 50-iteration loop of `powerIterationOrthogonal`. -/
def orthoLoop (data : List (List ℚ)) (dim : ℕ) (pc1 : List ℚ) : ℕ → List ℚ → List ℚ
  | 0, v => v
  | Nat.succ k, v => orthoLoop data dim pc1 k (orthoStep data dim pc1 v)

/-- Source `powerIterationOrthogonal`, with the random start vector `r`
explicit. The initial deflation is followed by an unconditional
normalization; only the in-loop normalization is guarded. -/
def powerIterationOrthogonal (data : List (List ℚ)) (dim : ℕ) (pc1 r : List ℚ) :
    List ℚ :=
  let v0 := deflate pc1 r
  let norm := ratSqrt (dotProduct v0 v0)
  let v1 := v0.map (fun x => x / norm)
  orthoLoop data dim pc1 50 v1

/-- The first principal axis of a working set. -/
def basis1 (r1 : List ℚ) (allVectors : List (List ℚ)) : List ℚ :=
  powerIteration (centeredSet allVectors) (vecDim allVectors) r1

/-- The second (approximately orthogonal) principal axis of a working set. -/
def basis2 (r1 r2 : List ℚ) (allVectors : List (List ℚ)) : List ℚ :=
  powerIterationOrthogonal (centeredSet allVectors) (vecDim allVectors)
    (basis1 r1 allVectors) r2

/-- Projection of one vector of the working set onto the two axes:
`(centered · pc1, centered · pc2)`. -/
def projPoint (r1 r2 : List ℚ) (allVectors : List (List ℚ)) (v : List ℚ) : ℚ × ℚ :=
  (dotProduct (centerVec (meanVec allVectors) v) (basis1 r1 allVectors),
   dotProduct (centerVec (meanVec allVectors) v) (basis2 r1 r2 allVectors))

/-- The result record of `projectTo2D`. -/
structure ProjResult where
  projected : List (ℚ × ℚ)
  queryProjected : Option (ℚ × ℚ)
deriving DecidableEq

/-- Source `projectTo2D`: empty input short-circuits; otherwise append the
query (if any) to the working set, center, compute the two axes, project
every working-set member, and pop the query's pair off the end
(`projected.pop()`). `r1`, `r2` are the random start vectors of the two
power iterations, made explicit arguments. -/
def projectTo2D (r1 r2 : List ℚ) (vectors : List (List ℚ))
    (queryVector : Option (List ℚ)) : ProjResult :=
  if vectors.isEmpty then ⟨[], none⟩
  else
    let allVectors := workingSet vectors queryVector
    let projected := allVectors.map (projPoint r1 r2 allVectors)
    match queryVector with
    | some _ => ⟨projected.dropLast, projected.getLast?⟩
    | none => ⟨projected, none⟩

/-- Modelled from claim C7's words (not from the source): a variant of
`powerIteration` in which the initial normalization of the start vector is
also guarded by `norm > 1e-10`, the vector being kept unchanged otherwise.
Used to compare the claim's reading against the source behavior. -/
def powerIterationClaimed (data : List (List ℚ)) (dim : ℕ) (r : List ℚ) : List ℚ :=
  let norm := ratSqrt (dotProduct r r)
  let v := if 1 / 10 ^ 10 < norm then r.map (fun x => x / norm) else r
  powerLoop data dim 50 v

/-- Draw-effect bounds: minimum x over the projected points, extended by the
query point when present (source lines computing `minX` before `transform`). -/
def drawMinX (pts : List Point2D) (qp : Option (ℚ × ℚ)) : ℚ :=
  match qp with
  | none => minXOf pts
  | some q => min (minXOf pts) q.1

/-- Draw-effect maximum x; see `drawMinX`. -/
def drawMaxX (pts : List Point2D) (qp : Option (ℚ × ℚ)) : ℚ :=
  match qp with
  | none => maxXOf pts
  | some q => max (maxXOf pts) q.1

/-- Draw-effect minimum y; see `drawMinX`. -/
def drawMinY (pts : List Point2D) (qp : Option (ℚ × ℚ)) : ℚ :=
  match qp with
  | none => minYOf pts
  | some q => min (minYOf pts) q.2

/-- Draw-effect maximum y; see `drawMinX`. -/
def drawMaxY (pts : List Point2D) (qp : Option (ℚ × ℚ)) : ℚ :=
  match qp with
  | none => maxYOf pts
  | some q => max (maxYOf pts) q.2

/-- The draw effect's `transform` applied to a data point, with the
draw-time bounds (query point included) and padding 40. -/
def drawDevicePos (pts : List Point2D) (qp : Option (ℚ × ℚ))
    (width height zoom panX panY x y : ℚ) : ℚ × ℚ :=
  transformPt (drawMinX pts qp) (drawMinY pts qp)
    (rangeOr1 (drawMaxX pts qp - drawMinX pts qp))
    (rangeOr1 (drawMaxY pts qp - drawMinY pts qp))
    width height 40 zoom panX panY x y

/-- Top-left corner of the hover info panel (source:
`infoX = Math.min(x + 15, width - 180); infoY = Math.max(y - 60, 10)`); the
panel rectangle is 170 wide and 55 tall. -/
def infoPos (pts : List Point2D) (qp : Option (ℚ × ℚ))
    (width height zoom panX panY : ℚ) (hp : Point2D) : ℚ × ℚ :=
  let pos := drawDevicePos pts qp width height zoom panX panY hp.x hp.y
  (min (pos.1 + 15) (width - 180), max (pos.2 - 60) 10)

/-- The interaction state touched by `handleMouseMove`. -/
structure VizState where
  zoom : ℚ
  pan : ℚ × ℚ
  isDragging : Bool
  dragStart : ℚ × ℚ
  hovered : Option Point2D
deriving DecidableEq

/-- Source `handleMouseMove`: while dragging, update pan from the drag
anchor and return; otherwise, if there are no projected points return with
the state untouched; otherwise recompute the hover target by hit-testing. -/
def handleMouseMove (clientX clientY rectLeft rectTop width height : ℚ)
    (pts : List Point2D) (s : VizState) : VizState :=
  let mouseX := clientX - rectLeft
  let mouseY := clientY - rectTop
  if s.isDragging then
    { s with pan := (clientX - s.dragStart.1, clientY - s.dragStart.2) }
  else if pts.isEmpty then s
  else
    { s with hovered := hitTest mouseX mouseY pts width height s.zoom s.pan.1 s.pan.2 }

/-- Source `handleClick`: with a hover target and a registered callback,
look up the first record whose id matches the hovered point's id and invoke
the callback on it; otherwise do nothing. The returned option is the
invocation (`none` = callback not invoked). -/
def handleClick (hoveredPoint : Option Point2D) (hasCallback : Bool)
    (vectors : List VectorDocument) : Option VectorDocument :=
  match hoveredPoint, hasCallback with
  | some hp, true => vectors.find? (fun v => v.id == hp.id)
  | _, _ => none

end Explorer

namespace Explorer

/-- C5: pan composes additively and independently of zoom:
`toDevice(p, zoom, pan) = toDevice(p, zoom, (0,0)) + pan` component-wise,
for every point, bounds, viewport, padding and zoom. -/
theorem transform_pan_additive
    (minX minY rangeX rangeY width height padding zoom panX panY x y : ℚ) :
    transformPt minX minY rangeX rangeY width height padding zoom panX panY x y =
      ((transformPt minX minY rangeX rangeY width height padding zoom 0 0 x y).1 + panX,
       (transformPt minX minY rangeX rangeY width height padding zoom 0 0 x y).2 + panY) := by
  simp only [transformPt, Prod.mk.injEq]
  constructor <;> ring

/-- C6: with pan `(0,0)` and a bounding box of nonzero x- and y-range, the
data point at the bounding-box center maps exactly to the viewport center
`(W/2, H/2)`, for every zoom and padding. -/
theorem transform_center_selfmap
    (minX maxX minY maxY width height padding zoom : ℚ)
    (hx : maxX - minX ≠ 0) (hy : maxY - minY ≠ 0) :
    transformPt minX minY (rangeOr1 (maxX - minX)) (rangeOr1 (maxY - minY))
        width height padding zoom 0 0 ((minX + maxX) / 2) ((minY + maxY) / 2) =
      (width / 2, height / 2) := by
  simp only [transformPt, rangeOr1, if_neg hx, if_neg hy, Prod.mk.injEq]
  constructor
  · have h1 : ((minX + maxX) / 2 - minX) / (maxX - minX) = 1 / 2 := by
      field_simp
      ring
    rw [h1]
    ring
  · have h2 : ((minY + maxY) / 2 - minY) / (maxY - minY) = 1 / 2 := by
      field_simp
      ring
    rw [h2]
    ring

/-- Witness for C6 at a concrete bounding box, viewport, padding and zoom. -/
theorem transform_center_selfmap_witness :
    transformPt 0 0 (rangeOr1 (2 - 0)) (rangeOr1 (2 - 0)) 600 300 40 5 0 0
        ((0 + 2) / 2) ((0 + 2) / 2) = (600 / 2, 300 / 2) :=
  transform_center_selfmap 0 2 0 2 600 300 40 5 (by norm_num) (by norm_num)

/-- Every single zoom operation keeps a zoom in `[0.2, 5]` inside `[0.2, 5]`. -/
theorem applyZoomOp_zoom_mem (s : ViewState) (op : ZoomOp)
    (h1 : 1 / 5 ≤ s.zoom) (h2 : s.zoom ≤ 5) :
    1 / 5 ≤ (applyZoomOp s op).zoom ∧ (applyZoomOp s op).zoom ≤ 5 := by
  cases op with
  | wheel d =>
    refine ⟨le_max_left _ _, max_le (by norm_num) (min_le_left _ _)⟩
  | zoomIn =>
    refine ⟨le_min (by linarith) (by norm_num), min_le_right _ _⟩
  | zoomOut =>
    refine ⟨le_max_right _ _, max_le ?_ (by norm_num)⟩
    have h : s.zoom / (6 / 5) = s.zoom * (5 / 6) := by ring
    rw [h]
    linarith
  | reset =>
    norm_num [applyZoomOp]

/-- A fold of zoom operations from any in-range state stays in range. -/
theorem foldl_applyZoomOp_mem (ops : List ZoomOp) (s : ViewState)
    (h1 : 1 / 5 ≤ s.zoom) (h2 : s.zoom ≤ 5) :
    1 / 5 ≤ (ops.foldl applyZoomOp s).zoom ∧ (ops.foldl applyZoomOp s).zoom ≤ 5 := by
  induction ops generalizing s with
  | nil => exact ⟨h1, h2⟩
  | cons op rest ih =>
    have h := applyZoomOp_zoom_mem s op h1 h2
    exact ih (applyZoomOp s op) h.1 h.2

/-- C4: starting from the initial zoom 1, every sequence of wheel events,
zoom-in/zoom-out button presses and resets leaves the zoom in `[0.2, 5]`
(each operation applying its stated factor with its clamps), and the reset
operation restores zoom 1 and pan `(0, 0)` from any state. -/
theorem zoom_always_in_range (ops : List ZoomOp) (s : ViewState) :
    (1 / 5 ≤ (ops.foldl applyZoomOp initialView).zoom ∧
      (ops.foldl applyZoomOp initialView).zoom ≤ 5) ∧
    applyZoomOp s .reset = ⟨1, (0, 0)⟩ :=
  ⟨foldl_applyZoomOp_mem ops initialView (by norm_num [initialView]) (by norm_num [initialView]),
   rfl⟩

/-- The running-minimum scan yields `none` exactly when it started from
`none` and no candidate beat the running threshold. -/
theorem scanMin_eq_none_iff (d : Point2D → ℚ) (l : List Point2D) (cd : ℚ)
    (best : Option Point2D) :
    scanMin d l cd best = none ↔ best = none ∧ ∀ q ∈ l, cd ≤ d q := by
  induction l generalizing cd best with
  | nil => simp [scanMin]
  | cons p rest ih =>
    simp only [scanMin]
    by_cases h : d p < cd
    · rw [if_pos h, ih]
      simp only [List.mem_cons]
      constructor
      · rintro ⟨h1, -⟩
        exact absurd h1 (by simp)
      · rintro ⟨-, h2⟩
        exact absurd (h2 p (Or.inl rfl)) (not_le.mpr h)
    · rw [if_neg h, ih]
      simp only [List.mem_cons]
      constructor
      · rintro ⟨h1, h2⟩
        refine ⟨h1, fun q hq => ?_⟩
        rcases hq with rfl | hq
        · exact not_lt.mp h
        · exact h2 q hq
      · rintro ⟨h1, h2⟩
        exact ⟨h1, fun q hq => h2 q (Or.inr hq)⟩

/-- When the running-minimum scan yields a point, either the seed survived
against every candidate, or the result is a candidate strictly under the
seed threshold, weakly minimal over the whole list and strictly smaller
than every candidate before it. -/
theorem scanMin_some_spec (d : Point2D → ℚ) (l : List Point2D) (cd : ℚ)
    (best : Option Point2D) (p : Point2D)
    (h : scanMin d l cd best = some p) :
    (best = some p ∧ ∀ q ∈ l, cd ≤ d q) ∨
      (d p < cd ∧ (∀ q ∈ l, d p ≤ d q) ∧
        ∃ l1 l2, l = l1 ++ p :: l2 ∧ ∀ q ∈ l1, d p < d q) := by
  induction l generalizing cd best with
  | nil =>
    left
    exact ⟨h, by simp⟩
  | cons a rest ih =>
    simp only [scanMin] at h
    by_cases ha : d a < cd
    · rw [if_pos ha] at h
      rcases ih (d a) (some a) h with ⟨h1, h2⟩ | ⟨h1, h2, l1, l2, h3, h4⟩
      · right
        obtain rfl : a = p := by injection h1
        refine ⟨ha, ?_, [], rest, rfl, by simp⟩
        intro q hq
        rcases List.mem_cons.mp hq with rfl | hq
        · exact le_refl _
        · exact h2 q hq
      · right
        refine ⟨lt_trans h1 ha, ?_, a :: l1, l2, by rw [h3]; rfl, ?_⟩
        · intro q hq
          rcases List.mem_cons.mp hq with rfl | hq
          · exact le_of_lt h1
          · exact h2 q hq
        · intro q hq
          rcases List.mem_cons.mp hq with rfl | hq
          · exact h1
          · exact h4 q hq
    · rw [if_neg ha] at h
      rcases ih cd best h with ⟨h1, h2⟩ | ⟨h1, h2, l1, l2, h3, h4⟩
      · left
        refine ⟨h1, fun q hq => ?_⟩
        rcases List.mem_cons.mp hq with rfl | hq
        · exact not_lt.mp ha
        · exact h2 q hq
      · right
        refine ⟨h1, ?_, a :: l1, l2, by rw [h3]; rfl, ?_⟩
        · intro q hq
          rcases List.mem_cons.mp hq with rfl | hq
          · exact le_of_lt (lt_of_lt_of_le h1 (not_lt.mp ha))
          · exact h2 q hq
        · intro q hq
          rcases List.mem_cons.mp hq with rfl | hq
          · exact lt_of_lt_of_le h1 (not_lt.mp ha)
          · exact h4 q hq

/-- C1: hit-testing returns a point only if its squared device distance to
the pointer is strictly below the squared threshold `(20 * zoom) ^ 2` and
weakly minimal over all projected points, with the first point in input
order kept among equidistant minima (every earlier point is strictly
farther); and it returns `none` exactly when every candidate is at squared
distance at least the squared threshold. Distances and the threshold are
compared squared; the real square root is strictly monotone on
nonnegatives, so the source's comparisons of `Math.sqrt` distances against
`20 * zoom` take the same branches (the app keeps `zoom > 0`). -/
theorem hitTest_argmin (mouseX mouseY width height zoom panX panY : ℚ)
    (pts : List Point2D) :
    (∀ p, hitTest mouseX mouseY pts width height zoom panX panY = some p →
      p ∈ pts ∧
      hoverDistSq mouseX mouseY width height zoom panX panY pts p < (20 * zoom) ^ 2 ∧
      (∀ q ∈ pts, hoverDistSq mouseX mouseY width height zoom panX panY pts p ≤
        hoverDistSq mouseX mouseY width height zoom panX panY pts q) ∧
      ∃ l1 l2, pts = l1 ++ p :: l2 ∧ ∀ q ∈ l1,
        hoverDistSq mouseX mouseY width height zoom panX panY pts p <
          hoverDistSq mouseX mouseY width height zoom panX panY pts q) ∧
    (hitTest mouseX mouseY pts width height zoom panX panY = none ↔
      ∀ q ∈ pts, (20 * zoom) ^ 2 ≤
        hoverDistSq mouseX mouseY width height zoom panX panY pts q) := by
  constructor
  · intro p hp
    rcases scanMin_some_spec _ pts ((20 * zoom) ^ 2) none p hp with ⟨h1, -⟩ | ⟨h1, h2, l1, l2, h3, h4⟩
    · exact absurd h1 (by simp)
    · exact ⟨h3 ▸ List.mem_append_right l1 (List.mem_cons_self p l2),
        h1, h2, l1, l2, h3, h4⟩
  · rw [hitTest, scanMin_eq_none_iff]
    simp

/-- Witness for C1: a single point whose device position is `(40, 260)` in a
600×300 viewport at zoom 1; the pointer at `(45, 260)` is at squared
distance 25 < 400, so hit-testing returns it and the theorem's conclusions
hold at it. -/
theorem hitTest_argmin_witness :
    (⟨0, 0, 1, none, false, none, [0]⟩ : Point2D) ∈
        [(⟨0, 0, 1, none, false, none, [0]⟩ : Point2D)] ∧
    hoverDistSq 45 260 600 300 1 0 0 [⟨0, 0, 1, none, false, none, [0]⟩]
        ⟨0, 0, 1, none, false, none, [0]⟩ < (20 * 1) ^ 2 ∧
    (∀ q ∈ [(⟨0, 0, 1, none, false, none, [0]⟩ : Point2D)],
      hoverDistSq 45 260 600 300 1 0 0 [⟨0, 0, 1, none, false, none, [0]⟩]
          ⟨0, 0, 1, none, false, none, [0]⟩ ≤
        hoverDistSq 45 260 600 300 1 0 0 [⟨0, 0, 1, none, false, none, [0]⟩] q) ∧
    ∃ l1 l2, [(⟨0, 0, 1, none, false, none, [0]⟩ : Point2D)] =
        l1 ++ (⟨0, 0, 1, none, false, none, [0]⟩ : Point2D) :: l2 ∧ ∀ q ∈ l1,
      hoverDistSq 45 260 600 300 1 0 0 [⟨0, 0, 1, none, false, none, [0]⟩]
          ⟨0, 0, 1, none, false, none, [0]⟩ <
        hoverDistSq 45 260 600 300 1 0 0 [⟨0, 0, 1, none, false, none, [0]⟩] q :=
  (hitTest_argmin 45 260 600 300 1 0 0 [⟨0, 0, 1, none, false, none, [0]⟩]).1
    ⟨0, 0, 1, none, false, none, [0]⟩
    (by norm_num [hitTest, scanMin, hoverDistSq, hoverDevicePos, transformPt,
      minXOf, minYOf, maxXOf, maxYOf, rangeOr1])

/-- Reading a list back off by index reconstructs it. -/
theorem map_getD_range (v : List ℚ) :
    (List.range v.length).map (fun i => v.getD i 0) = v := by
  induction v with
  | nil => rfl
  | cons a t ih =>
    rw [List.length_cons, List.range_succ_eq_map, List.map_cons, List.map_map]
    simp only [Function.comp_def, List.getD_cons_succ, List.getD_cons_zero]
    rw [ih]

/-- The mean of `m ≥ 1` copies of one vector is that vector. -/
theorem meanVec_replicate (m : ℕ) (hm : m ≠ 0) (v : List ℚ) :
    meanVec (List.replicate m v) = v := by
  have hd : (List.replicate m v).headD [] = v := by
    cases m with
    | zero => exact absurd rfl hm
    | succ k => rfl
  unfold meanVec vecDim
  rw [hd]
  simp only [List.map_replicate, List.sum_replicate, List.length_replicate]
  have h : ∀ i : ℕ, m • (v.getD i 0 / (m : ℚ)) = v.getD i 0 := by
    intro i
    rw [nsmul_eq_mul]
    have hm' : (m : ℚ) ≠ 0 := Nat.cast_ne_zero.mpr hm
    field_simp
  simp only [h]
  exact map_getD_range v

/-- Subtracting a list from itself pointwise yields zeros. -/
theorem zipWith_sub_self (v : List ℚ) :
    List.zipWith (fun x m => x - m) v v = List.replicate v.length 0 := by
  induction v with
  | nil => rfl
  | cons a t ih => simp [List.replicate_succ, ih]

/-- A dot product whose left operand is all zeros vanishes. -/
theorem dotProduct_replicate_zero (k : ℕ) (b : List ℚ) :
    dotProduct (List.replicate k 0) b = 0 := by
  induction k generalizing b with
  | zero => simp [dotProduct]
  | succ n ih =>
    cases b with
    | nil => simp [dotProduct]
    | cons x xs =>
      have h := ih xs
      simp only [dotProduct, List.replicate_succ, List.zipWith_cons_cons,
        List.sum_cons] at h ⊢
      rw [zero_mul, zero_add]
      exact h

/-- Unfolding of `projectTo2D` on a nonempty batch with no query vector. -/
theorem projectTo2D_cons_none (r1 r2 a : List ℚ) (t : List (List ℚ)) :
    projectTo2D r1 r2 (a :: t) none =
      ⟨(workingSet (a :: t) none).map (projPoint r1 r2 (workingSet (a :: t) none)),
       none⟩ := rfl

/-- Unfolding of `projectTo2D` on a nonempty batch with a query vector. -/
theorem projectTo2D_cons_some (r1 r2 a qq : List ℚ) (t : List (List ℚ)) :
    projectTo2D r1 r2 (a :: t) (some qq) =
      ⟨((workingSet (a :: t) (some qq)).map
          (projPoint r1 r2 (workingSet (a :: t) (some qq)))).dropLast,
       ((workingSet (a :: t) (some qq)).map
          (projPoint r1 r2 (workingSet (a :: t) (some qq)))).getLast?⟩ := rfl

/-- In a working set of identical vectors, every member projects to the
origin: centering zeroes the vector, so both basis dot products vanish. -/
theorem projPoint_replicate (m : ℕ) (hm : m ≠ 0) (v r1 r2 : List ℚ) :
    projPoint r1 r2 (List.replicate m v) v = (0, 0) := by
  unfold projPoint centerVec
  rw [meanVec_replicate m hm v, zipWith_sub_self,
    dotProduct_replicate_zero, dotProduct_replicate_zero]

/-- C2: a batch of `n ≥ 1` identical vectors projects every point to
`(0, 0)`, with no query vector or with a query vector equal to that same
vector (which then also projects to `(0, 0)`), regardless of the random
start vectors of the two power iterations. -/
theorem projectTo2D_degenerate (n : ℕ) (hn : 1 ≤ n) (v r1 r2 : List ℚ) :
    projectTo2D r1 r2 (List.replicate n v) none = ⟨List.replicate n (0, 0), none⟩ ∧
    projectTo2D r1 r2 (List.replicate n v) (some v) =
      ⟨List.replicate n (0, 0), some (0, 0)⟩ := by
  obtain ⟨k, rfl⟩ : ∃ k, n = k + 1 := ⟨n - 1, by omega⟩
  have hrep : List.replicate (k + 1) v = v :: List.replicate k v :=
    List.replicate_succ v k
  constructor
  · rw [hrep, projectTo2D_cons_none, ← hrep]
    rw [show workingSet (List.replicate (k + 1) v) none = List.replicate (k + 1) v
      from rfl]
    rw [List.map_replicate, projPoint_replicate (k + 1) (Nat.succ_ne_zero k) v r1 r2]
  · rw [hrep, projectTo2D_cons_some, ← hrep]
    rw [show workingSet (List.replicate (k + 1) v) (some v) = List.replicate (k + 2) v by
      show List.replicate (k + 1) v ++ [v] = _
      rw [← List.replicate_succ']]
    rw [List.map_replicate, projPoint_replicate (k + 2) (Nat.succ_ne_zero (k + 1)) v r1 r2]
    rw [List.replicate_succ' (k + 1), List.dropLast_concat, List.getLast?_concat]

/-- Witness for C2 at a singleton batch. -/
theorem projectTo2D_degenerate_witness :
    projectTo2D [1] [1] (List.replicate 1 [(2 : ℚ)]) none =
      ⟨List.replicate 1 (0, 0), none⟩ ∧
    projectTo2D [1] [1] (List.replicate 1 [(2 : ℚ)]) (some [(2 : ℚ)]) =
      ⟨List.replicate 1 (0, 0), some (0, 0)⟩ :=
  projectTo2D_degenerate 1 (by norm_num) [(2 : ℚ)] [1] [1]

/-- C3: an empty batch short-circuits to an empty point list and no query
point; a nonempty batch yields exactly one projected pair per input vector,
in input order (`points[i]` is the projection of `vectors[i]` in the basis
of the full working set), with the query's projection (when present)
removed from the list and returned separately. -/
theorem projectTo2D_shape (r1 r2 : List ℚ) (vs : List (List ℚ))
    (q : Option (List ℚ)) :
    projectTo2D r1 r2 [] q = ⟨[], none⟩ ∧
    (vs ≠ [] →
      (projectTo2D r1 r2 vs q).projected =
        vs.map (projPoint r1 r2 (workingSet vs q)) ∧
      (projectTo2D r1 r2 vs q).queryProjected =
        Option.map (projPoint r1 r2 (workingSet vs q)) q ∧
      (projectTo2D r1 r2 vs q).projected.length = vs.length) := by
  constructor
  · cases q <;> rfl
  · intro hvs
    obtain ⟨a, t, rfl⟩ : ∃ a t, vs = a :: t := by
      cases vs with
      | nil => exact absurd rfl hvs
      | cons a t => exact ⟨a, t, rfl⟩
    cases q with
    | none =>
      rw [projectTo2D_cons_none]
      exact ⟨rfl, rfl, by simp [workingSet]⟩
    | some qq =>
      rw [projectTo2D_cons_some]
      have hws : workingSet (a :: t) (some qq) = (a :: t) ++ [qq] := rfl
      have hmap : (workingSet (a :: t) (some qq)).map
            (projPoint r1 r2 (workingSet (a :: t) (some qq))) =
          (a :: t).map (projPoint r1 r2 (workingSet (a :: t) (some qq))) ++
            [projPoint r1 r2 (workingSet (a :: t) (some qq)) qq] := by
        rw [hws, List.map_append, List.map_singleton]
      refine ⟨?_, ?_, ?_⟩
      · show ((workingSet (a :: t) (some qq)).map
            (projPoint r1 r2 (workingSet (a :: t) (some qq)))).dropLast = _
        rw [hmap, List.dropLast_concat]
      · show ((workingSet (a :: t) (some qq)).map
            (projPoint r1 r2 (workingSet (a :: t) (some qq)))).getLast? = _
        rw [hmap, List.getLast?_concat]
        rfl
      · show ((workingSet (a :: t) (some qq)).map
            (projPoint r1 r2 (workingSet (a :: t) (some qq)))).dropLast.length = _
        rw [hmap, List.dropLast_concat, List.length_map]

/-- Witness for C3 at a nonempty batch with a query vector. -/
theorem projectTo2D_shape_witness :
    (projectTo2D [1] [1] [[(1 : ℚ)], [(3 : ℚ)]] (some [(5 : ℚ)])).projected =
      [[(1 : ℚ)], [(3 : ℚ)]].map
        (projPoint [1] [1] (workingSet [[(1 : ℚ)], [(3 : ℚ)]] (some [(5 : ℚ)]))) ∧
    (projectTo2D [1] [1] [[(1 : ℚ)], [(3 : ℚ)]] (some [(5 : ℚ)])).queryProjected =
      Option.map
        (projPoint [1] [1] (workingSet [[(1 : ℚ)], [(3 : ℚ)]] (some [(5 : ℚ)])))
        (some [(5 : ℚ)]) ∧
    (projectTo2D [1] [1] [[(1 : ℚ)], [(3 : ℚ)]] (some [(5 : ℚ)])).projected.length =
      [[(1 : ℚ)], [(3 : ℚ)]].length :=
  (projectTo2D_shape [1] [1] [[(1 : ℚ)], [(3 : ℚ)]] (some [(5 : ℚ)])).2 (by simp)

/-- A dot product with an all-zero left operand vanishes. -/
theorem dotProduct_zero_left (a : List ℚ) :
    ∀ b : List ℚ, (∀ x ∈ a, x = 0) → dotProduct a b = 0 := by
  induction a with
  | nil => intro b _; simp [dotProduct]
  | cons x xs ih =>
    intro b h
    cases b with
    | nil => simp [dotProduct]
    | cons y ys =>
      have h2 := ih ys (fun z hz => h z (List.mem_cons_of_mem x hz))
      simp only [dotProduct, List.zipWith_cons_cons, List.sum_cons] at h2 ⊢
      rw [h x (List.mem_cons_self x xs), zero_mul, zero_add]
      exact h2

/-- Pointwise addition of two all-zero lists is all zero. -/
theorem zipWith_add_allZero (a : List ℚ) :
    ∀ b : List ℚ, (∀ x ∈ a, x = 0) → (∀ x ∈ b, x = 0) →
      ∀ y ∈ List.zipWith (fun acc x => acc + x) a b, y = 0 := by
  induction a with
  | nil => intro b _ _ y hy; simp at hy
  | cons x xs ih =>
    intro b ha hb y hy
    cases b with
    | nil => simp at hy
    | cons z zs =>
      rw [List.zipWith_cons_cons] at hy
      rcases List.mem_cons.mp hy with rfl | hy
      · rw [ha x (List.mem_cons_self x xs), hb z (List.mem_cons_self z zs), add_zero]
      · exact ih zs (fun w hw => ha w (List.mem_cons_of_mem x hw))
          (fun w hw => hb w (List.mem_cons_of_mem z hw)) y hy

/-- The covariance application over an all-zero batch is all zero. -/
theorem covApply_allZero (v : List ℚ) (data : List (List ℚ))
    (hdata : ∀ row ∈ data, ∀ x ∈ row, x = 0) :
    ∀ (dim : ℕ), ∀ y ∈ covApply data dim v, y = 0 := by
  intro dim
  unfold covApply
  have haux : ∀ (l : List (List ℚ)), (∀ row ∈ l, ∀ x ∈ row, x = 0) →
      ∀ (acc : List ℚ), (∀ x ∈ acc, x = 0) →
      ∀ y ∈ l.foldl (fun result row =>
        List.zipWith (fun acc x => acc + x) result
          (row.map (fun x => x * dotProduct row v))) acc, y = 0 := by
    intro l
    induction l with
    | nil => intro _ acc hacc y hy; exact hacc y hy
    | cons row rest ih =>
      intro hl acc hacc y hy
      rw [List.foldl_cons] at hy
      refine ih (fun r hr => hl r (List.mem_cons_of_mem row hr)) _ ?_ y hy
      refine zipWith_add_allZero acc _ hacc ?_
      intro w hw
      obtain ⟨x, hx, rfl⟩ := List.mem_map.mp hw
      rw [hl row (List.mem_cons_self row rest) x hx, zero_mul]
  exact haux data hdata (List.replicate dim 0) (fun x hx => List.eq_of_mem_replicate hx)

/-- `ratSqrt` of zero is zero. -/
theorem ratSqrt_zero : ratSqrt 0 = 0 := by
  norm_num [ratSqrt, natSqrt]

/-- Deflating an all-zero vector yields an all-zero vector. -/
theorem deflate_allZero (pc1 v : List ℚ) (hv : ∀ x ∈ v, x = 0) :
    ∀ y ∈ deflate pc1 v, y = 0 := by
  unfold deflate
  rw [dotProduct_zero_left v pc1 hv]
  have haux : ∀ (w p : List ℚ), (∀ x ∈ w, x = 0) →
      ∀ y ∈ List.zipWith (fun x p => x - 0 * p) w p, y = 0 := by
    intro w
    induction w with
    | nil => intro p _ y hy; simp at hy
    | cons a t ih =>
      intro p hw y hy
      cases p with
      | nil => simp at hy
      | cons c cs =>
        rw [List.zipWith_cons_cons] at hy
        rcases List.mem_cons.mp hy with rfl | hy
        · rw [hw a (List.mem_cons_self a t)]; ring
        · exact ih cs (fun x hx => hw x (List.mem_cons_of_mem a hx)) y hy
  exact haux v pc1 hv

/-- Over an all-zero batch, one `powerIteration` loop step keeps the iterate
unchanged: the covariance image is zero, the norm underflows the guard, and
the normalization is skipped. -/
theorem powerStep_allZeroData (data : List (List ℚ)) (dim : ℕ) (v : List ℚ)
    (hdata : ∀ row ∈ data, ∀ x ∈ row, x = 0) :
    powerStep data dim v = v := by
  simp only [powerStep]
  rw [dotProduct_zero_left _ _ (covApply_allZero v data hdata dim), ratSqrt_zero]
  norm_num

/-- Over an all-zero batch, any number of `powerIteration` loop steps keeps
the iterate unchanged. -/
theorem powerLoop_allZeroData (data : List (List ℚ)) (dim : ℕ)
    (hdata : ∀ row ∈ data, ∀ x ∈ row, x = 0) :
    ∀ (k : ℕ) (v : List ℚ), powerLoop data dim k v = v := by
  intro k
  induction k with
  | zero => intro v; rfl
  | succ n ih =>
    intro v
    show powerLoop data dim n (powerStep data dim v) = v
    rw [powerStep_allZeroData data dim v hdata, ih v]

/-- Over an all-zero batch, one `powerIterationOrthogonal` loop step keeps
the iterate unchanged. -/
theorem orthoStep_allZeroData (data : List (List ℚ)) (dim : ℕ) (pc1 v : List ℚ)
    (hdata : ∀ row ∈ data, ∀ x ∈ row, x = 0) :
    orthoStep data dim pc1 v = v := by
  simp only [orthoStep]
  rw [dotProduct_zero_left _ _
    (deflate_allZero pc1 _ (covApply_allZero v data hdata dim)), ratSqrt_zero]
  norm_num

/-- Over an all-zero batch, any number of `powerIterationOrthogonal` loop
steps keeps the iterate unchanged. -/
theorem orthoLoop_allZeroData (data : List (List ℚ)) (dim : ℕ) (pc1 : List ℚ)
    (hdata : ∀ row ∈ data, ∀ x ∈ row, x = 0) :
    ∀ (k : ℕ) (v : List ℚ), orthoLoop data dim pc1 k v = v := by
  intro k
  induction k with
  | zero => intro v; rfl
  | succ n ih =>
    intro v
    show orthoLoop data dim pc1 n (orthoStep data dim pc1 v) = v
    rw [orthoStep_allZeroData data dim pc1 v hdata, ih v]

/-- C7 counterexample: on the one-dimensional all-zero batch `[[0]]` with
start vector `[1e-20]`, the source's `powerIteration` normalizes the start
vector unconditionally (dividing by its norm `1e-20 ≤ 1e-10`) and returns
`[1]`, whereas the claim's reading — every normalization, including the
initial one, performed only when the norm exceeds `1e-10` — would keep
`[1e-20]`. The two disagree, so the initial normalization is not guarded. -/
theorem powerIteration_initial_unguarded :
    powerIteration [[(0 : ℚ)]] 1 [1 / 10 ^ 20] = [1] ∧
    powerIterationClaimed [[(0 : ℚ)]] 1 [1 / 10 ^ 20] = [1 / 10 ^ 20] ∧
    powerIteration [[(0 : ℚ)]] 1 [1 / 10 ^ 20] ≠
      powerIterationClaimed [[(0 : ℚ)]] 1 [1 / 10 ^ 20] := by
  have hz : ∀ row ∈ [[(0 : ℚ)]], ∀ x ∈ row, x = 0 := by simp
  have hdot : dotProduct [(1 : ℚ) / 10 ^ 20] [(1 : ℚ) / 10 ^ 20] = 1 / 10 ^ 40 := by
    norm_num [dotProduct]
  have hns : natSqrt (10 ^ 40) = 10 ^ 20 := by decide
  have hsqrt : ratSqrt ((1 : ℚ) / 10 ^ 40) = 1 / 10 ^ 20 := by
    unfold ratSqrt
    norm_num
    rw [show (10000000000000000000000000000000000000000 : ℕ) = 10 ^ 40 by norm_num,
      hns]
    norm_num
  refine ⟨?_, ?_, ?_⟩
  · show powerLoop [[(0 : ℚ)]] 1 50
        ([(1 : ℚ) / 10 ^ 20].map (fun x =>
          x / ratSqrt (dotProduct [(1 : ℚ) / 10 ^ 20] [(1 : ℚ) / 10 ^ 20]))) = [1]
    rw [hdot, hsqrt, powerLoop_allZeroData [[(0 : ℚ)]] 1 hz 50]
    norm_num
  · show powerLoop [[(0 : ℚ)]] 1 50
        (if 1 / 10 ^ 10 < ratSqrt (dotProduct [(1 : ℚ) / 10 ^ 20] [(1 : ℚ) / 10 ^ 20])
         then [(1 : ℚ) / 10 ^ 20].map (fun x =>
           x / ratSqrt (dotProduct [(1 : ℚ) / 10 ^ 20] [(1 : ℚ) / 10 ^ 20]))
         else [(1 : ℚ) / 10 ^ 20]) = [1 / 10 ^ 20]
    rw [hdot, hsqrt, if_neg (by norm_num), powerLoop_allZeroData [[(0 : ℚ)]] 1 hz 50]
  · intro hcontra
    have h1 : powerIteration [[(0 : ℚ)]] 1 [1 / 10 ^ 20] = [1] := by
      show powerLoop [[(0 : ℚ)]] 1 50
          ([(1 : ℚ) / 10 ^ 20].map (fun x =>
            x / ratSqrt (dotProduct [(1 : ℚ) / 10 ^ 20] [(1 : ℚ) / 10 ^ 20]))) = [1]
      rw [hdot, hsqrt, powerLoop_allZeroData [[(0 : ℚ)]] 1 hz 50]
      norm_num
    have h2 : powerIterationClaimed [[(0 : ℚ)]] 1 [1 / 10 ^ 20] = [1 / 10 ^ 20] := by
      show powerLoop [[(0 : ℚ)]] 1 50
          (if 1 / 10 ^ 10 < ratSqrt (dotProduct [(1 : ℚ) / 10 ^ 20] [(1 : ℚ) / 10 ^ 20])
           then [(1 : ℚ) / 10 ^ 20].map (fun x =>
             x / ratSqrt (dotProduct [(1 : ℚ) / 10 ^ 20] [(1 : ℚ) / 10 ^ 20]))
           else [(1 : ℚ) / 10 ^ 20]) = [1 / 10 ^ 20]
      rw [hdot, hsqrt, if_neg (by norm_num), powerLoop_allZeroData [[(0 : ℚ)]] 1 hz 50]
    rw [h1, h2] at hcontra
    norm_num at hcontra

/-- C7 (amended): in both power-iteration routines the in-loop
normalization is guarded — a loop step renormalizes exactly when the norm
of the (deflated, for the second axis) covariance image exceeds `1e-10` and
keeps the iterate unchanged otherwise, so over fully degenerate (all-zero)
centered data any number of loop steps returns the start iterate untouched.
The initial normalization of the random start vector (and, for the second
axis, the normalization right after the initial Gram-Schmidt removal) is
unconditional and carries no such guard. -/
theorem powerIteration_guard_spec (data : List (List ℚ)) (dim : ℕ)
    (pc1 r v : List ℚ) (k : ℕ) :
    (¬ 1 / 10 ^ 10 < ratSqrt (dotProduct (covApply data dim v) (covApply data dim v)) →
      powerStep data dim v = v) ∧
    (1 / 10 ^ 10 < ratSqrt (dotProduct (covApply data dim v) (covApply data dim v)) →
      powerStep data dim v = (covApply data dim v).map
        (fun x => x / ratSqrt (dotProduct (covApply data dim v) (covApply data dim v)))) ∧
    (¬ 1 / 10 ^ 10 < ratSqrt (dotProduct (deflate pc1 (covApply data dim v))
        (deflate pc1 (covApply data dim v))) →
      orthoStep data dim pc1 v = v) ∧
    (1 / 10 ^ 10 < ratSqrt (dotProduct (deflate pc1 (covApply data dim v))
        (deflate pc1 (covApply data dim v))) →
      orthoStep data dim pc1 v = (deflate pc1 (covApply data dim v)).map
        (fun x => x / ratSqrt (dotProduct (deflate pc1 (covApply data dim v))
          (deflate pc1 (covApply data dim v))))) ∧
    (powerIteration data dim r =
      powerLoop data dim 50 (r.map (fun x => x / ratSqrt (dotProduct r r)))) ∧
    (powerIterationOrthogonal data dim pc1 r =
      orthoLoop data dim pc1 50 ((deflate pc1 r).map
        (fun x => x / ratSqrt (dotProduct (deflate pc1 r) (deflate pc1 r))))) ∧
    ((∀ row ∈ data, ∀ x ∈ row, x = 0) →
      powerLoop data dim k v = v ∧ orthoLoop data dim pc1 k v = v) := by
  refine ⟨?_, ?_, ?_, ?_, rfl, rfl, ?_⟩
  · intro h
    simp only [powerStep]
    rw [if_neg h]
  · intro h
    simp only [powerStep]
    rw [if_pos h]
  · intro h
    simp only [orthoStep]
    rw [if_neg h]
  · intro h
    simp only [orthoStep]
    rw [if_pos h]
  · intro hz
    exact ⟨powerLoop_allZeroData data dim hz k v,
      orthoLoop_allZeroData data dim pc1 hz k v⟩

/-- Witness for the amended C7 at the all-zero batch `[[0]]`: the loop steps
keep the iterate `[3]` unchanged after the guard fails, and 50 loop steps
leave it untouched. -/
theorem powerIteration_guard_spec_witness :
    powerStep [[(0 : ℚ)]] 1 [3] = [3] ∧
    orthoStep [[(0 : ℚ)]] 1 [1] [3] = [3] ∧
    powerLoop [[(0 : ℚ)]] 1 50 [3] = [3] ∧
    orthoLoop [[(0 : ℚ)]] 1 [1] 50 [3] = [3] := by
  have h := powerIteration_guard_spec [[(0 : ℚ)]] 1 [1] [2] [3] 50
  have hz : ∀ row ∈ [[(0 : ℚ)]], ∀ x ∈ row, x = 0 := by simp
  have hcov : dotProduct (covApply [[(0 : ℚ)]] 1 [3]) (covApply [[(0 : ℚ)]] 1 [3]) = 0 :=
    dotProduct_zero_left _ _ (covApply_allZero [3] [[(0 : ℚ)]] hz 1)
  have hdefl : dotProduct (deflate [1] (covApply [[(0 : ℚ)]] 1 [3]))
      (deflate [1] (covApply [[(0 : ℚ)]] 1 [3])) = 0 :=
    dotProduct_zero_left _ _
      (deflate_allZero [1] _ (covApply_allZero [3] [[(0 : ℚ)]] hz 1))
  exact ⟨h.1 (by rw [hcov, ratSqrt_zero]; norm_num),
    h.2.2.1 (by rw [hdefl, ratSqrt_zero]; norm_num),
    (h.2.2.2.2.2.2 hz).1, (h.2.2.2.2.2.2 hz).2⟩

/-- C8 counterexample: a pointer-move during a drag. In the state after the
event the pan has been updated from the drag anchor and the hover target is
still `none`, even though hit-testing the pointer position under the
updated transform parameters finds the point (device position `(40, 260)`,
pointer `(40, 260)`, distance 0): the hover target is not recomputed on
pointer moves while dragging. -/
theorem handleMouseMove_drag_stale_hover :
    handleMouseMove 40 260 0 0 600 300 [⟨0, 0, 1, none, false, none, [0]⟩]
        ⟨1, (7, 9), true, (40, 260), none⟩ =
      ⟨1, (0, 0), true, (40, 260), none⟩ ∧
    hitTest 40 260 [⟨0, 0, 1, none, false, none, [0]⟩] 600 300 1 0 0 =
      some ⟨0, 0, 1, none, false, none, [0]⟩ ∧
    (⟨1, (0, 0), true, (40, 260), none⟩ : VizState).hovered ≠
      hitTest 40 260 [⟨0, 0, 1, none, false, none, [0]⟩] 600 300 1 0 0 := by
  have h2 : hitTest 40 260 [⟨0, 0, 1, none, false, none, [0]⟩] 600 300 1 0 0 =
      some ⟨0, 0, 1, none, false, none, [0]⟩ := by
    norm_num [hitTest, scanMin, hoverDistSq, hoverDevicePos, transformPt,
      minXOf, minYOf, maxXOf, maxYOf, rangeOr1]
  refine ⟨by norm_num [handleMouseMove], h2, ?_⟩
  rw [h2]
  simp

/-- C8 (amended): a pointer-move while no drag is in progress and the
projected point set is nonempty recomputes the hover target as the
hit-test of the pointer position under the current transform parameters
(and leaves pan untouched); a pointer-move while dragging only updates pan
from the drag anchor and leaves the hover target unchanged; a pointer-move
while idle with an empty projected point set leaves the whole state
untouched. -/
theorem handleMouseMove_hover_spec (clientX clientY rectLeft rectTop width height : ℚ)
    (pts : List Point2D) (s : VizState) :
    (s.isDragging = false → pts ≠ [] →
      handleMouseMove clientX clientY rectLeft rectTop width height pts s =
        { s with hovered := (hitTest (clientX - rectLeft) (clientY - rectTop)
            pts width height s.zoom s.pan.1 s.pan.2) }) ∧
    (s.isDragging = true →
      handleMouseMove clientX clientY rectLeft rectTop width height pts s =
        { s with pan := (clientX - s.dragStart.1, clientY - s.dragStart.2) }) ∧
    (s.isDragging = false → pts = [] →
      handleMouseMove clientX clientY rectLeft rectTop width height pts s = s) := by
  refine ⟨?_, ?_, ?_⟩
  · intro hd hne
    have hempty : pts.isEmpty = false := by
      cases pts with
      | nil => exact absurd rfl hne
      | cons a t => rfl
    simp [handleMouseMove, hd, hempty]
  · intro hd
    simp [handleMouseMove, hd]
  · intro hd hpe
    subst hpe
    simp [handleMouseMove, hd]

/-- Witness for the amended C8: a pointer-move in the idle state over one
point recomputes the hover target by hit-testing. -/
theorem handleMouseMove_hover_spec_witness :
    handleMouseMove 40 260 0 0 600 300 [⟨0, 0, 1, none, false, none, [0]⟩]
        ⟨1, (0, 0), false, (0, 0), none⟩ =
      ⟨1, (0, 0), false, (0, 0),
        hitTest (40 - 0) (260 - 0) [⟨0, 0, 1, none, false, none, [0]⟩]
          600 300 1 0 0⟩ :=
  (handleMouseMove_hover_spec 40 260 0 0 600 300
    [⟨0, 0, 1, none, false, none, [0]⟩] ⟨1, (0, 0), false, (0, 0), none⟩).1
    rfl (by simp)

/-- C9 counterexample: with one point, a 600×300 viewport, zoom 5 and pan
`(910, -550)`, the point's device position is `(-90, 150)`; the pointer at
`(0, 150)` is at distance 90 < 100 = 20·zoom, so it becomes the hover
target — yet the info panel's left edge `min(-90 + 15, 600 - 180) = -75`
lies outside the viewport: the panel is not clamped on the left. -/
theorem infoPanel_offscreen :
    hitTest 0 150 [⟨0, 0, 1, none, false, none, [0]⟩] 600 300 5 910 (-550) =
      some ⟨0, 0, 1, none, false, none, [0]⟩ ∧
    (infoPos [⟨0, 0, 1, none, false, none, [0]⟩] none 600 300 5 910 (-550)
      ⟨0, 0, 1, none, false, none, [0]⟩).1 < 0 := by
  constructor
  · norm_num [hitTest, scanMin, hoverDistSq, hoverDevicePos, transformPt,
      minXOf, minYOf, maxXOf, maxYOf, rangeOr1]
  · norm_num [infoPos, drawDevicePos, drawMinX, drawMinY, drawMaxX, drawMaxY,
      transformPt, minXOf, minYOf, maxXOf, maxYOf, rangeOr1]

/-- C9 (amended): the info panel is clamped only at the right and top — its
right edge is always at most `W - 10` and its top edge at least 10; all
four edges lie inside the viewport `[0, W] × [0, H]` when additionally
`W ≥ 180`, `H ≥ 65`, and the hovered point's device position satisfies
`x ≥ -15` and `y ≤ H + 5`. (The left and bottom edges can fall outside for
hovered points near or beyond the left or bottom viewport edges.) -/
theorem infoPanel_clamp (pts : List Point2D) (qp : Option (ℚ × ℚ))
    (width height zoom panX panY : ℚ) (hp : Point2D) :
    (infoPos pts qp width height zoom panX panY hp).1 + 170 ≤ width - 10 ∧
    10 ≤ (infoPos pts qp width height zoom panX panY hp).2 ∧
    (180 ≤ width → 65 ≤ height →
      -15 ≤ (drawDevicePos pts qp width height zoom panX panY hp.x hp.y).1 →
      (drawDevicePos pts qp width height zoom panX panY hp.x hp.y).2 ≤ height + 5 →
      0 ≤ (infoPos pts qp width height zoom panX panY hp).1 ∧
      (infoPos pts qp width height zoom panX panY hp).1 + 170 ≤ width ∧
      0 ≤ (infoPos pts qp width height zoom panX panY hp).2 ∧
      (infoPos pts qp width height zoom panX panY hp).2 + 55 ≤ height) := by
  have e1 : (infoPos pts qp width height zoom panX panY hp).1 =
      min ((drawDevicePos pts qp width height zoom panX panY hp.x hp.y).1 + 15)
        (width - 180) := rfl
  have e2 : (infoPos pts qp width height zoom panX panY hp).2 =
      max ((drawDevicePos pts qp width height zoom panX panY hp.x hp.y).2 - 60)
        10 := rfl
  rw [e1, e2]
  refine ⟨?_, le_max_right _ _, ?_⟩
  · have h := min_le_right
      ((drawDevicePos pts qp width height zoom panX panY hp.x hp.y).1 + 15)
      (width - 180)
    linarith
  · intro h1 h2 h3 h4
    refine ⟨le_min (by linarith) (by linarith), ?_, ?_, ?_⟩
    · have h := min_le_right
        ((drawDevicePos pts qp width height zoom panX panY hp.x hp.y).1 + 15)
        (width - 180)
      linarith
    · have h : (0 : ℚ) ≤ 10 := by norm_num
      exact le_trans h (le_max_right _ _)
    · have h := max_le (show
        (drawDevicePos pts qp width height zoom panX panY hp.x hp.y).2 - 60 ≤
          height - 55 by linarith) (show (10 : ℚ) ≤ height - 55 by linarith)
      linarith

/-- Witness for the amended C9: one point at device position `(40, 260)` in
a 600×300 viewport; the panel at `(55, 200)` lies entirely inside. -/
theorem infoPanel_clamp_witness :
    0 ≤ (infoPos [⟨0, 0, 1, none, false, none, [0]⟩] none 600 300 1 0 0
        ⟨0, 0, 1, none, false, none, [0]⟩).1 ∧
    (infoPos [⟨0, 0, 1, none, false, none, [0]⟩] none 600 300 1 0 0
        ⟨0, 0, 1, none, false, none, [0]⟩).1 + 170 ≤ 600 ∧
    0 ≤ (infoPos [⟨0, 0, 1, none, false, none, [0]⟩] none 600 300 1 0 0
        ⟨0, 0, 1, none, false, none, [0]⟩).2 ∧
    (infoPos [⟨0, 0, 1, none, false, none, [0]⟩] none 600 300 1 0 0
        ⟨0, 0, 1, none, false, none, [0]⟩).2 + 55 ≤ 300 :=
  (infoPanel_clamp [⟨0, 0, 1, none, false, none, [0]⟩] none 600 300 1 0 0
      ⟨0, 0, 1, none, false, none, [0]⟩).2.2
    (by norm_num) (by norm_num)
    (by norm_num [drawDevicePos, drawMinX, drawMinY, drawMaxX, drawMaxY,
      transformPt, minXOf, minYOf, maxXOf, maxYOf, rangeOr1])
    (by norm_num [drawDevicePos, drawMinX, drawMinY, drawMaxX, drawMaxY,
      transformPt, minXOf, minYOf, maxXOf, maxYOf, rangeOr1])

/-- `find?` returning a hit splits the list at the first satisfying
element. -/
theorem find?_eq_some_split (p : VectorDocument → Bool) (l : List VectorDocument)
    (d : VectorDocument) (h : l.find? p = some d) :
    p d = true ∧ ∃ l1 l2, l = l1 ++ d :: l2 ∧ ∀ v ∈ l1, p v = false := by
  induction l with
  | nil => simp [List.find?] at h
  | cons a t ih =>
    by_cases hpa : p a = true
    · rw [List.find?_cons_of_pos _ hpa] at h
      obtain rfl : a = d := by injection h
      exact ⟨hpa, [], t, rfl, by simp⟩
    · rw [List.find?_cons_of_neg _ (by simpa using hpa)] at h
      obtain ⟨h1, l1, l2, rfl, h3⟩ := ih h
      refine ⟨h1, a :: l1, l2, rfl, ?_⟩
      intro v hv
      rcases List.mem_cons.mp hv with rfl | hv
      · simpa using hpa
      · exact h3 v hv

/-- C10: the click handler invokes the callback exactly when a hover target
is set, a callback is registered, and some record's id matches the hovered
point's id; the invoked record is the first match in batch order (all
records before it have a different id); with no hover target or no callback
nothing happens. -/
theorem handleClick_spec (hov : Option Point2D) (cb : Bool)
    (vs : List VectorDocument) :
    (∀ d, handleClick hov cb vs = some d →
      cb = true ∧ ∃ hp, hov = some hp ∧ d.id = hp.id ∧
        ∃ l1 l2, vs = l1 ++ d :: l2 ∧ ∀ v ∈ l1, v.id ≠ hp.id) ∧
    (∀ hp, hov = some hp → cb = true → (∃ v ∈ vs, v.id = hp.id) →
      ∃ d, handleClick hov cb vs = some d) ∧
    (hov = none → handleClick hov cb vs = none) ∧
    (cb = false → handleClick hov cb vs = none) := by
  refine ⟨?_, ?_, ?_, ?_⟩
  · intro d hd
    match hov, cb with
    | none, _ => exact absurd hd (by simp [handleClick])
    | some hp, false => exact absurd hd (by simp [handleClick])
    | some hp, true =>
      obtain ⟨h1, l1, l2, rfl, h3⟩ := find?_eq_some_split _ vs d hd
      refine ⟨rfl, hp, rfl, by simpa using h1, l1, l2, rfl, ?_⟩
      intro v hv
      have := h3 v hv
      simpa using this
  · rintro hp rfl rfl ⟨v, hv, hid⟩
    show ∃ d, vs.find? (fun w => w.id == hp.id) = some d
    cases hfind : vs.find? (fun w => w.id == hp.id) with
    | some d => exact ⟨d, rfl⟩
    | none =>
      have := List.find?_eq_none.mp hfind v hv
      simp [hid] at this
  · rintro rfl
    rfl
  · rintro rfl
    cases hov <;> rfl

/-- Witness for C10: hovering the point with id 2 over a two-record batch
invokes the callback on the second record, the first match in order. -/
theorem handleClick_spec_witness :
    true = true ∧ ∃ hp, some (⟨0, 0, 2, none, false, none, [0]⟩ : Point2D) = some hp ∧
      (⟨2, [(2 : ℚ)], none⟩ : VectorDocument).id = hp.id ∧
      ∃ l1 l2, [⟨1, [(1 : ℚ)], none⟩, ⟨2, [(2 : ℚ)], none⟩] =
        l1 ++ (⟨2, [(2 : ℚ)], none⟩ : VectorDocument) :: l2 ∧
        ∀ v ∈ l1, v.id ≠ hp.id :=
  (handleClick_spec (some ⟨0, 0, 2, none, false, none, [0]⟩) true
      [⟨1, [(1 : ℚ)], none⟩, ⟨2, [(2 : ℚ)], none⟩]).1
    ⟨2, [(2 : ℚ)], none⟩ (by simp [handleClick])

end Explorer
